import Mathlib

set_option maxHeartbeats 1000000
set_option maxRecDepth 4000

namespace VideoConverter

/-- Rust `f32` values abstracted: finite values are modelled as exact rationals
(the decimal literals and the small arithmetic of this program are treated
exactly, which is adequate at the tolerances the specification states); the
IEEE special values keep their propagation behaviour.  The `Bool` of an
infinity is `true` when the infinity is negative. -/
inductive RFloat where
  | fin : ℚ → RFloat
  | inf : Bool → RFloat
  | nan : RFloat
deriving DecidableEq, Repr

/-- IEEE addition on the abstraction (signed zeros are identified). -/
def RFloat.add : RFloat → RFloat → RFloat
  | .nan, _ => .nan
  | _, .nan => .nan
  | .fin a, .fin b => .fin (a + b)
  | .fin _, .inf s => .inf s
  | .inf s, .fin _ => .inf s
  | .inf s, .inf t => if s = t then .inf s else .nan

/-- IEEE multiplication on the abstraction (finite overflow is ignored:
the magnitudes this program produces are far below the `f32` range). -/
def RFloat.mul : RFloat → RFloat → RFloat
  | .nan, _ => .nan
  | _, .nan => .nan
  | .fin a, .fin b => .fin (a * b)
  | .fin a, .inf s => if a = 0 then .nan else .inf (xor (decide (a < 0)) s)
  | .inf s, .fin b => if b = 0 then .nan else .inf (xor s (decide (b < 0)))
  | .inf s, .inf t => .inf (xor s t)

/-- IEEE division on the abstraction (signed zeros identified, the divisor
zero is treated as `+0`). -/
def RFloat.div : RFloat → RFloat → RFloat
  | .nan, _ => .nan
  | _, .nan => .nan
  | .fin a, .fin b =>
      if b = 0 then (if a = 0 then .nan else .inf (decide (a < 0)))
      else .fin (a / b)
  | .fin _, .inf _ => .fin 0
  | .inf s, .fin b => .inf (xor s (decide (b < 0)))
  | .inf _, .inf _ => .nan

/-- IEEE strict order: any comparison involving `NaN` is false. -/
def RFloat.lt : RFloat → RFloat → Bool
  | .nan, _ => false
  | _, .nan => false
  | .fin a, .fin b => decide (a < b)
  | .fin _, .inf s => !s
  | .inf s, .fin _ => s
  | .inf s, .inf t => s && !t

/-- Number of bytes of the UTF-8 encoding of a character (the unit in which
Rust's `str::find`, byte slicing and `char_indices` count). -/
def utf8Len (c : Char) : Nat :=
  if c.toNat < 128 then 1
  else if c.toNat < 2048 then 2
  else if c.toNat < 65536 then 3
  else 4

/-- ASCII decimal digit test, the `Digit ::= [0-9]` of Rust's float grammar. -/
def isDig (c : Char) : Bool :=
  decide (48 ≤ c.toNat ∧ c.toNat ≤ 57)

/-- Value of a big-endian list of decimal digit characters. -/
def digitsToNat (l : List Char) : Nat :=
  l.foldl (fun a c => 10 * a + (c.toNat - 48)) 0

/-- Rust `str::split(sep)`: every string splits into one more piece than it
has separators, empty pieces included (so `""` gives `[[]]`). -/
def splitOn (sep : Char) : List Char → List (List Char)
  | [] => [[]]
  | c :: rest =>
    if c = sep then [] :: splitOn sep rest
    else
      match splitOn sep rest with
      | h :: t => (c :: h) :: t
      | [] => [[c]]

/-- Split at the first character satisfying `p`: returns the part before it
and, when `p` hit, the part after it. -/
def splitFirst (p : Char → Bool) : List Char → List Char × Option (List Char)
  | [] => ([], none)
  | c :: rest =>
    if p c then ([], some rest)
    else
      match splitFirst p rest with
      | (a, b) => (c :: a, b)

/-- Total number of UTF-8 bytes of a character list. -/
def utf8Bytes (l : List Char) : Nat :=
  (l.map utf8Len).sum

/-- Drop exactly `n` leading UTF-8 bytes; `none` when `n` is not a character
boundary or exceeds the string (a Rust byte-slice panic). -/
def sliceFrom : List Char → Nat → Option (List Char)
  | l, 0 => some l
  | [], _ + 1 => none
  | c :: rest, n + 1 =>
    if utf8Len c ≤ n + 1 then sliceFrom rest (n + 1 - utf8Len c) else none

/-- Take exactly `n` leading UTF-8 bytes; `none` when `n` is not a character
boundary or exceeds the string (a Rust byte-slice panic). -/
def takeBytes : List Char → Nat → Option (List Char)
  | _, 0 => some []
  | [], _ + 1 => none
  | c :: rest, n + 1 =>
    if utf8Len c ≤ n + 1 then (takeBytes rest (n + 1 - utf8Len c)).map (c :: ·)
    else none

/-- Rust byte slicing `&s[a..b]`: `none` models the panic on an out-of-range
or non-boundary index. -/
def byteSlice (s : String) (a b : Nat) : Option String :=
  if a ≤ b then
    (sliceFrom s.toList a).bind fun l => (takeBytes l (b - a)).map String.mk
  else none

/-- Worker of `findSub`: byte offset of the first occurrence of `pat`,
scanning from offset `ofs`. -/
def findSubAux (pat : List Char) : List Char → Nat → Option Nat
  | [], ofs => if pat = [] then some ofs else none
  | c :: rest, ofs =>
    if pat.isPrefixOf (c :: rest) then some ofs
    else findSubAux pat rest (ofs + utf8Len c)

/-- Rust `str::find(pat)`: byte offset of the first occurrence of `pat`. -/
def findSub (hay pat : String) : Option Nat :=
  findSubAux pat.toList hay.toList 0

/-- Rust `str::contains(pat)`. -/
def containsSub (hay pat : String) : Bool :=
  (findSub hay pat).isSome

/-- Strip one optional leading sign, reporting `true` when it was `-`. -/
def stripSign (cs : List Char) : Bool × List Char :=
  match cs with
  | [] => (false, [])
  | c :: rest =>
    if c = '-' then (true, rest)
    else if c = '+' then (false, rest)
    else (false, cs)

/-- Exponent part of Rust's float grammar: `Exp ::= Sign? Digit+` (the `e`
itself is already consumed by the caller). -/
def parseExp (cs : List Char) : Option Int :=
  let sd := stripSign cs
  if sd.2 ≠ [] ∧ sd.2.all isDig then
    some (if sd.1 then -(digitsToNat sd.2 : Int) else (digitsToNat sd.2 : Int))
  else none

/-- `Number` of Rust's float grammar:
`(Digit+ | Digit+ '.' Digit* | Digit* '.' Digit+) (('e'|'E') Exp)?`,
evaluated exactly over `ℚ`. -/
def parseNumber (cs : List Char) : Option ℚ :=
  let em := splitFirst (fun c => c = 'e' ∨ c = 'E') cs
  let ipfp := splitFirst (fun c => c = '.') em.1
  let ip := ipfp.1
  let fp := ipfp.2.getD []
  if ip ++ fp = [] then none
  else if ¬ (ip.all isDig ∧ fp.all isDig) then none
  else
    let base : ℚ := (digitsToNat ip : ℚ) + (digitsToNat fp : ℚ) / (10 : ℚ) ^ fp.length
    match em.2 with
    | none => some base
    | some ex =>
      match parseExp ex with
      | some k => some (base * (10 : ℚ) ^ k)
      | none => none

/-- Rust `<f32 as FromStr>::from_str`:
`Float ::= Sign? ('inf' | 'infinity' | 'nan' | Number)`, the keywords read
case-insensitively.  This is what every `parts[i].parse()` in
`parse_duration` invokes. -/
def rustParseF32 (cs : List Char) : Option RFloat :=
  let sb := stripSign cs
  let lower := sb.2.map Char.toLower
  if lower = ['i', 'n', 'f'] ∨ lower = ['i', 'n', 'f', 'i', 'n', 'i', 't', 'y'] then
    some (RFloat.inf sb.1)
  else if lower = ['n', 'a', 'n'] then
    some RFloat.nan
  else
    match parseNumber sb.2 with
    | some q => some (RFloat.fin (if sb.1 then -q else q))
    | none => none

/-- `fn parse_duration(duration: &str) -> Result<f32, ()>` of `src/main.rs`:
split on `':'`, demand exactly three fields, parse each as `f32`, and return
`hours * 3600.0 + minutes * 60.0 + seconds`. -/
def parse_duration (duration : String) : Option RFloat :=
  match splitOn ':' duration.toList with
  | [p0, p1, p2] =>
    match rustParseF32 p0 with
    | none => none
    | some hours =>
      match rustParseF32 p1 with
      | none => none
      | some minutes =>
        match rustParseF32 p2 with
        | none => none
        | some seconds =>
          some (RFloat.add
            (RFloat.add (RFloat.mul hours (RFloat.fin 3600)) (RFloat.mul minutes (RFloat.fin 60)))
            seconds)
  | _ => none

/-- Rust `Path::file_name` on Unix: the last component of the path once empty
components and non-meaningful `.` components are discarded; `none` when the
path is empty, a root, or ends in a `..` component. -/
def rustFileName (p : String) : Option String :=
  let comps := (splitOn '/' p.toList).filter fun c => decide (¬ c = [] ∧ ¬ c = ['.'])
  match comps.getLast? with
  | some c => if c = ['.', '.'] then none else some (String.mk c)
  | none => none

/-- Split a file name into Rust's `file_stem` / `extension` pair: the split is
at the last `.`, except that a `.` as the very first character of the name
does not start an extension. -/
def splitStemExt (f : String) : String × Option String :=
  let r := splitFirst (fun c => c = '.') f.toList.reverse
  match r.2 with
  | none => (f, none)
  | some stemR =>
    if stemR = [] then (f, none)
    else (String.mk stemR.reverse, some (String.mk r.1.reverse))

/-- Rust `Path::extension`. -/
def rustExtension (p : String) : Option String :=
  (rustFileName p).bind fun f => (splitStemExt f).2

/-- Rust `Path::file_stem`. -/
def rustFileStem (p : String) : Option String :=
  (rustFileName p).map fun f => (splitStemExt f).1

/-- Rust `str::to_lowercase` restricted to ASCII, which covers every
extension string this program compares. -/
def asciiLower (s : String) : String :=
  String.mk (s.toList.map Char.toLower)

/-- Rust `str::trim_start_matches('.')`. -/
def trimLeadingDots (s : String) : String :=
  String.mk (s.toList.dropWhile fun c => c = '.')

/-- The `SUPPORTED_FORMATS` table of `src/main.rs`: display name and
canonical extension of each selectable container format. -/
def SUPPORTED_FORMATS : List (String × String) :=
  [("MP4", ".mp4"), ("AVI", ".avi"), ("MKV", ".mkv"),
   ("MOV", ".mov"), ("WMV", ".wmv"), ("FLV", ".flv")]

/-- Extension normalization of the Convert handler (`src/main.rs` lines
151-169): append the selected extension when the output path has none;
when it has one that differs case-insensitively from the selected one
(leading dots stripped), rebuild the path from its bare file stem plus the
selected extension; otherwise leave the path alone. -/
def normalizeOutput (output : String) (selected_extension : String) : String :=
  if (rustExtension output).isNone then
    output ++ selected_extension
  else
    match rustExtension output with
    | some ext =>
      let ext_str := asciiLower ext
      let selected_ext_str := asciiLower (trimLeadingDots selected_extension)
      if ext_str ≠ selected_ext_str then
        match rustFileStem output with
        | some stem => stem ++ selected_extension
        | none => output
      else output
    | none => output

/-- The `Message` enum of `src/main.rs`: events sent from the worker thread
to the UI through the mpsc channel. -/
inductive Message where
  | Status : String → Message
  | Progress : RFloat → Message
deriving DecidableEq, Repr

/-- Outcome of `Child::wait` on the transcoding process: a normal exit
carrying `ExitStatus::success`, or an I/O error with its display text. -/
inductive ExitOutcome where
  | exited : Bool → ExitOutcome
  | waitErr : String → ExitOutcome
deriving DecidableEq, Repr

/-- The observable behaviour of the external tool in one conversion:
`probe` is the result of the duration-probe `Command::output()` (error
display text, or the captured stderr text), and `spawn` is the result of the
transcode `Command::spawn()` (error display text, or the successfully read
stderr lines followed by the wait outcome).  Lines whose read failed are
skipped by the code (`if let Ok(line)`) and therefore do not appear. -/
structure World where
  probe : Except String String
  spawn : Except String (List String × ExitOutcome)

/-- What one worker-thread run did: the events it sent, whether each of the
two external commands was invoked, and whether the thread died in an
uncaught panic instead of terminating normally. -/
structure RunResult where
  events : List Message
  probeCalled : Bool
  transcodeCalled : Bool
  panicked : Bool
deriving DecidableEq, Repr

/-- Rust `str::lines` (used on the probe's captured stderr): split on `'\n'`,
drop a final empty piece, and strip one trailing `'\r'` from each line. -/
def rustLines (s : String) : List String :=
  let parts := splitOn '\n' s.toList
  let parts2 := if parts.getLast? = some [] then parts.dropLast else parts
  parts2.map fun l => String.mk (if l.getLast? = some '\r' then l.dropLast else l)

/-- Result of the duration probe on a given stderr text. -/
inductive ProbeStep where
  | success : RFloat → ProbeStep
  | fail : String → ProbeStep
  | panicked : ProbeStep
deriving DecidableEq, Repr

/-- Phase 1 of the worker (`src/main.rs` lines 192-219) applied to the
captured stderr text: find the first line containing `Duration:`, byte-slice
the nine bytes at offsets 10..18 after the first occurrence of
`"Duration: "`, and parse them with `parse_duration`.  `panicked` records
the byte-slice panic on a too-short line or a non-boundary index. -/
def probePhase (stderrText : String) : ProbeStep :=
  match (rustLines stderrText).find? (fun line => containsSub line "Duration:") with
  | none => ProbeStep.fail "Failed to retrieve video duration."
  | some duration_line =>
    match findSub duration_line "Duration: " with
    | none => ProbeStep.fail "Failed to find duration information."
    | some start =>
      match byteSlice duration_line (start + 10) (start + 19) with
      | none => ProbeStep.panicked
      | some duration_str =>
        match parse_duration duration_str with
        | some total_seconds => ProbeStep.success total_seconds
        | none => ProbeStep.fail "Failed to parse video duration."

/-- The `time=` payload of a progress line (`src/main.rs` lines 257-261):
everything after the first `time=`, cut at the first space or comma.  The
byte slice `&line[time_pos + 5..]` is kept as `sliceFrom`, and cutting at the
byte index of a found character is expressed as `takeWhile` on the characters
before it, which coincides because a found character sits on a boundary. -/
def timeField (line : String) : Option String :=
  match findSub line "time=" with
  | none => none
  | some time_pos =>
    match sliceFrom line.toList (time_pos + 5) with
    | none => none
    | some time_str =>
      some (String.mk (time_str.takeWhile fun c => decide (¬ (c = ' ' ∨ c = ','))))

/-- Elapsed seconds recovered from one stderr line: the `time=` payload fed
through `parse_duration`; `none` when the marker is absent or the payload
does not parse (the line is then silently skipped). -/
def elapsedOfLine (line : String) : Option RFloat :=
  (timeField line).bind fun t => parse_duration t

/-- The progress computation of the loop body (`src/main.rs` lines 263-264):
`(current_seconds / total_duration) * 100.0`, then replaced by `100.0`
whenever it exceeds `100.0`. -/
def clampProgress (total current : RFloat) : RFloat :=
  let progress := RFloat.mul (RFloat.div current total) (RFloat.fin 100)
  if RFloat.lt (RFloat.fin 100) progress then RFloat.fin 100 else progress

/-- The `ProgressChanged` value the loop emits for one stderr line, when it
emits one. -/
def progressOfLine (total : RFloat) (line : String) : Option RFloat :=
  (elapsedOfLine line).map fun current => clampProgress total current

/-- Events sent after the stderr stream closes (`src/main.rs` lines
272-284). -/
def exitEvents : ExitOutcome → List Message
  | ExitOutcome.exited true =>
      [Message.Status "Conversion successful.", Message.Progress (RFloat.fin 100)]
  | ExitOutcome.exited false => [Message.Status "Conversion failed."]
  | ExitOutcome.waitErr e => [Message.Status ("Failed to wait on ffmpeg: " ++ e)]

/-- The worker thread body (`src/main.rs` lines 179-285), as a function of
the two path strings it captured and of the external tool's behaviour. -/
def workerRun (input output : String) (w : World) : RunResult :=
  if input = "" ∨ output = "" then
    ⟨[Message.Status "Please specify both input and output files."], false, false, false⟩
  else
    match w.probe with
    | Except.error e =>
        ⟨[Message.Status ("Failed to execute ffmpeg for duration: " ++ e)], true, false, false⟩
    | Except.ok stderrText =>
      match probePhase stderrText with
      | ProbeStep.fail msg => ⟨[Message.Status msg], true, false, false⟩
      | ProbeStep.panicked => ⟨[], true, false, true⟩
      | ProbeStep.success total_duration =>
        match w.spawn with
        | Except.error e =>
            ⟨[Message.Status ("Failed to start ffmpeg: " ++ e)], true, true, false⟩
        | Except.ok (lns, exitOut) =>
            ⟨(lns.filterMap fun line => (progressOfLine total_duration line).map Message.Progress)
               ++ exitEvents exitOut,
             true, true, false⟩

/-- The fields of the application state that one press of Convert reads. -/
structure ConversionRequest where
  input_file : String
  output_file : String
  selected_format : Fin SUPPORTED_FORMATS.length
  metadata_title : String
  metadata_artist : String
  metadata_description : String

/-- The Convert handler (`src/main.rs` lines 142-285): normalize the output
path's extension against the selected format, then run the worker thread on
the captured strings. -/
def convertRun (req : ConversionRequest) (w : World) : RunResult :=
  let selected_extension := (SUPPORTED_FORMATS.get req.selected_format).2
  let output := normalizeOutput req.output_file selected_extension
  workerRun req.input_file output w

/-- The payloads of the `Progress` events of a trace, in order. -/
def progressValues (evs : List Message) : List RFloat :=
  evs.filterMap fun m =>
    match m with
    | Message.Progress p => some p
    | Message.Status _ => none

/-- Computation rule: addition of two finite values. -/
theorem RFloat.add_fin (a b : ℚ) :
    RFloat.add (RFloat.fin a) (RFloat.fin b) = RFloat.fin (a + b) := rfl

/-- Computation rule: multiplication of two finite values. -/
theorem RFloat.mul_fin (a b : ℚ) :
    RFloat.mul (RFloat.fin a) (RFloat.fin b) = RFloat.fin (a * b) := rfl

/-- Computation rule: division of two finite values. -/
theorem RFloat.div_fin (a b : ℚ) :
    RFloat.div (RFloat.fin a) (RFloat.fin b)
      = if b = 0 then (if a = 0 then RFloat.nan else RFloat.inf (decide (a < 0)))
        else RFloat.fin (a / b) := rfl

/-- Computation rule: strict comparison of two finite values. -/
theorem RFloat.lt_fin (a b : ℚ) :
    RFloat.lt (RFloat.fin a) (RFloat.fin b) = decide (a < b) := rfl

/-- C1 counterexample: the claim asserts `parse_duration` succeeds only when
every field parses as a *non-negative* floating-point number, but the code
never checks the sign: on `"-1:02:03"`, whose first field is the negative
number `-1`, it succeeds and returns `-3477` seconds. -/
theorem parse_duration_negative_field_accepted :
    parse_duration "-1:02:03" = some (RFloat.fin (-3477)) := by
  simp +decide [parse_duration, splitOn, rustParseF32, stripSign, parseNumber, splitFirst,
    parseExp, isDig, digitsToNat, RFloat.add, RFloat.mul]
  norm_num

/-- C2 (code bug): on a request whose output path is empty (and input path
non-empty), the claimed validation never fires.  The Convert handler first
normalizes the empty output path — `Path::new("").extension()` is `None`, so
the selected extension is appended and the path becomes `".mp4"` — and the
worker's emptiness check then passes, so the duration probe is spawned and
the emitted event is not `StatusChanged("Please specify both input and
output files.")`. -/
theorem empty_output_path_probe_spawned :
    normalizeOutput "" ".mp4" = ".mp4"
    ∧ (convertRun ⟨"in.mp4", "", ⟨0, by decide⟩, "", "", ""⟩
        ⟨Except.error "E", Except.error "E"⟩).probeCalled = true
    ∧ (convertRun ⟨"in.mp4", "", ⟨0, by decide⟩, "", "", ""⟩
        ⟨Except.error "E", Except.error "E"⟩).events
      = [Message.Status "Failed to execute ffmpeg for duration: E"] := by
  refine ⟨?_, ?_, ?_⟩ <;>
    simp +decide [convertRun, workerRun, normalizeOutput, rustExtension, rustFileName, splitOn,
      SUPPORTED_FORMATS]

/-- C3 counterexample: the loop clamps only the upper bound, so a parseable
negative `time=` payload is emitted below `0`: with total duration `276`,
the line `time=-01:00:00 bitrate=1` produces the event value
`-30000/23 ≈ -1304.3`, which is strictly below `0`. -/
theorem progress_negative_emitted :
    progressOfLine (RFloat.fin 276) "time=-01:00:00 bitrate=1"
      = some (RFloat.fin (-30000 / 23))
    ∧ ((-30000 / 23 : ℚ) < 0) := by
  refine ⟨?_, by norm_num⟩
  simp +decide [progressOfLine, elapsedOfLine, timeField, findSub, findSubAux, utf8Len,
    sliceFrom, clampProgress, parse_duration, splitOn,
    rustParseF32, stripSign, parseNumber, splitFirst, parseExp, isDig, digitsToNat,
    List.isPrefixOf, RFloat.add_fin, RFloat.mul_fin, RFloat.div_fin, RFloat.lt_fin]
  norm_num

/-- C4 counterexample: a probe line whose timestamp parses to exactly `0`
seconds is not rejected — `parse_duration` returns `Ok(0.0)`, so the worker
proceeds into Phase 2 with `TotalDuration = 0` instead of aborting. -/
theorem zero_duration_enters_transcode :
    probePhase " Duration: 00:00:00.00, start: 0" = ProbeStep.success (RFloat.fin 0)
    ∧ (workerRun "in.mp4" "out.mp4"
        ⟨Except.ok " Duration: 00:00:00.00, start: 0",
         Except.ok ([], ExitOutcome.exited false)⟩).transcodeCalled = true := by
  constructor
  · simp +decide [probePhase, rustLines, splitOn, containsSub, findSub, findSubAux, utf8Len,
      byteSlice, sliceFrom, takeBytes, parse_duration, rustParseF32, stripSign, parseNumber,
      splitFirst, parseExp, isDig, digitsToNat, List.isPrefixOf,
      RFloat.add_fin, RFloat.mul_fin]
  · simp +decide [workerRun, probePhase, rustLines, splitOn, containsSub, findSub, findSubAux,
      utf8Len, byteSlice, sliceFrom, takeBytes, parse_duration, rustParseF32, stripSign,
      parseNumber, splitFirst, parseExp, isDig, digitsToNat, List.isPrefixOf,
      RFloat.add_fin, RFloat.mul_fin]

/-- C5 (code bug): the probe slices `&duration_line[start+10..start+19]`
with an unchecked byte range.  On the stderr line `"Duration: 1:2"` — which
contains the marker but has fewer than 19 bytes from its start — the slice
is out of range, so the worker thread dies in an uncaught panic: no
`StatusChanged` event is delivered, contradicting the claimed conversion of
every probe failure into a status event. -/
theorem short_duration_line_panics :
    probePhase "Duration: 1:2" = ProbeStep.panicked
    ∧ (workerRun "in.mp4" "out.mp4"
        ⟨Except.ok "Duration: 1:2", Except.ok ([], ExitOutcome.exited true)⟩).panicked = true
    ∧ (workerRun "in.mp4" "out.mp4"
        ⟨Except.ok "Duration: 1:2", Except.ok ([], ExitOutcome.exited true)⟩).events = [] := by
  refine ⟨?_, ?_, ?_⟩ <;>
    simp +decide [workerRun, probePhase, rustLines, splitOn, containsSub, findSub, findSubAux,
      utf8Len, byteSlice, sliceFrom, takeBytes, List.isPrefixOf]


/-- Claim C1 (amended): `parse_duration` succeeds if and only if the input
splits on `':'` into exactly three fields each of which parses as a
floating-point number under Rust's grammar (sign-unrestricted — the
original claim's non-negativity is not checked by the code); on success it
returns `hours*3600 + minutes*60 + seconds`; and the four examples of the
claim hold: 276.10 (exactly, in the rational model), 3723, and the two
failures. -/
theorem parse_duration_amended_spec (s : String) :
    ((parse_duration s).isSome = true ↔
      ∃ p0 p1 p2, splitOn ':' s.toList = [p0, p1, p2] ∧
        (rustParseF32 p0).isSome = true ∧ (rustParseF32 p1).isSome = true ∧
        (rustParseF32 p2).isSome = true)
    ∧ (∀ p0 p1 p2 h m sec, splitOn ':' s.toList = [p0, p1, p2] →
        rustParseF32 p0 = some h → rustParseF32 p1 = some m → rustParseF32 p2 = some sec →
        parse_duration s = some (RFloat.add (RFloat.add (RFloat.mul h (RFloat.fin 3600))
          (RFloat.mul m (RFloat.fin 60))) sec))
    ∧ parse_duration "00:04:36.10" = some (RFloat.fin (2761 / 10))
    ∧ parse_duration "1:02:03" = some (RFloat.fin 3723)
    ∧ parse_duration "bad" = none
    ∧ parse_duration "00:00" = none := by
  refine ⟨?_, ?_, ?_, ?_, ?_, ?_⟩
  · unfold parse_duration
    rcases hs : splitOn ':' s.toList with _ | ⟨a, _ | ⟨b, _ | ⟨c, _ | ⟨d, l⟩⟩⟩⟩
    · simp
    · cases h0 : rustParseF32 a <;> simp [h0]
    · simp
    · cases h0 : rustParseF32 a <;> cases h1 : rustParseF32 b <;> cases h2 : rustParseF32 c <;>
        simp [h0, h1, h2]
      exact ⟨a, b, c, ⟨rfl, rfl, rfl⟩, by simp [h0], by simp [h1], by simp [h2]⟩
    · simp
  · intro p0 p1 p2 h m sec hs h0 h1 h2
    unfold parse_duration
    rw [hs]
    simp [h0, h1, h2]
  · simp +decide [parse_duration, splitOn, rustParseF32, stripSign, parseNumber, splitFirst,
      parseExp, isDig, digitsToNat, RFloat.add_fin, RFloat.mul_fin]
    norm_num
  · simp +decide [parse_duration, splitOn, rustParseF32, stripSign, parseNumber, splitFirst,
      parseExp, isDig, digitsToNat, RFloat.add_fin, RFloat.mul_fin]
    norm_num
  · simp +decide [parse_duration, splitOn]
  · simp +decide [parse_duration, splitOn]

/-- Witness for C1: the amended characterization applied to the concrete
input `"1:02:03"`. -/
theorem parse_duration_amended_spec_witness :
    parse_duration "1:02:03"
      = some (RFloat.add (RFloat.add (RFloat.mul (RFloat.fin 1) (RFloat.fin 3600))
          (RFloat.mul (RFloat.fin 2) (RFloat.fin 60))) (RFloat.fin 3)) :=
  (parse_duration_amended_spec "1:02:03").2.1 ['1'] ['0', '2'] ['0', '3']
    (RFloat.fin 1) (RFloat.fin 2) (RFloat.fin 3)
    (by decide)
    (by simp +decide [rustParseF32, stripSign, parseNumber, splitFirst, parseExp, isDig,
          digitsToNat])
    (by simp +decide [rustParseF32, stripSign, parseNumber, splitFirst, parseExp, isDig,
          digitsToNat])
    (by simp +decide [rustParseF32, stripSign, parseNumber, splitFirst, parseExp, isDig,
          digitsToNat])


/-- Claim C3 (amended): for a strictly positive finite total duration and a
line whose `time=` payload parses to a finite non-negative elapsed value,
the emitted percentage equals `min ((elapsed/total)*100, 100)` and lies in
`[0, 100]`.  (The code clamps only the upper bound, so without the
non-negativity hypothesis values below `0` are emitted — see the
counterexample.) -/
theorem progress_clamped_amended (total elapsed : ℚ) (line t : String)
    (h1 : timeField line = some t)
    (h2 : parse_duration t = some (RFloat.fin elapsed))
    (htot : 0 < total) (hel : 0 ≤ elapsed) :
    progressOfLine (RFloat.fin total) line
      = some (RFloat.fin (min (elapsed / total * 100) 100))
    ∧ 0 ≤ min (elapsed / total * 100) 100
    ∧ min (elapsed / total * 100) 100 ≤ 100 := by
  have hne : total ≠ 0 := ne_of_gt htot
  have hnn : 0 ≤ elapsed / total * 100 :=
    mul_nonneg (div_nonneg hel htot.le) (by norm_num)
  refine ⟨?_, le_min hnn (by norm_num), min_le_right _ _⟩
  have hbind : elapsedOfLine line = some (RFloat.fin elapsed) := by
    simp [elapsedOfLine, h1, h2]
  unfold progressOfLine
  rw [hbind]
  simp only [Option.map_some', clampProgress, RFloat.div_fin, if_neg hne, RFloat.mul_fin,
    RFloat.lt_fin, decide_eq_true_eq]
  rcases le_or_lt (elapsed / total * 100) 100 with h | h
  · rw [if_neg (not_lt.mpr h), min_eq_left h]
  · rw [if_pos h, min_eq_right h.le]

/-- Witness for C3: the amended clamping property at total `276` and the
concrete line `time=00:02:18 bitrate=1` (elapsed `138`, fifty percent). -/
theorem progress_clamped_amended_witness :
    progressOfLine (RFloat.fin 276) "time=00:02:18 bitrate=1"
      = some (RFloat.fin (min ((138 : ℚ) / 276 * 100) 100))
    ∧ 0 ≤ min ((138 : ℚ) / 276 * 100) 100
    ∧ min ((138 : ℚ) / 276 * 100) 100 ≤ 100 :=
  progress_clamped_amended 276 138 "time=00:02:18 bitrate=1" "00:02:18"
    (by decide)
    (by simp +decide [parse_duration, splitOn, rustParseF32, stripSign, parseNumber, splitFirst,
          parseExp, isDig, digitsToNat, RFloat.add_fin, RFloat.mul_fin]
        norm_num)
    (by norm_num) (by norm_num)


/-- Claim C4 (amended): with non-empty paths and a completed probe command,
the worker enters Phase 2 exactly when the probe yields a parsed duration —
any parsed duration, zero included; when the probe fails, it emits the
failure status as its only event and Phase 2 is never started. -/
theorem transcode_iff_probe_parses (input output s : String) (w : World)
    (hi : ¬ input = "") (ho : ¬ output = "") (hw : w.probe = Except.ok s) :
    (∀ total, probePhase s = ProbeStep.success total →
      (workerRun input output w).transcodeCalled = true)
    ∧ (∀ msg, probePhase s = ProbeStep.fail msg →
      (workerRun input output w).transcodeCalled = false
      ∧ (workerRun input output w).events = [Message.Status msg]) := by
  have hcond : ¬ (input = "" ∨ output = "") := by simp [hi, ho]
  constructor
  · intro total hp
    rcases hsp : w.spawn with e | ⟨lns, ex⟩ <;>
      simp [workerRun, hcond, hw, hp, hsp]
  · intro msg hp
    constructor <;> simp [workerRun, hcond, hw, hp]

/-- Witness for C4: the amended property applied to a concrete run whose
probe stderr parses to `1` second. -/
theorem transcode_iff_probe_parses_witness :
    (workerRun "in.mp4" "out.mp4"
      ⟨Except.ok " Duration: 00:00:01.00, start: 0",
       Except.ok ([], ExitOutcome.exited true)⟩).transcodeCalled = true :=
  (transcode_iff_probe_parses "in.mp4" "out.mp4" " Duration: 00:00:01.00, start: 0"
      ⟨Except.ok " Duration: 00:00:01.00, start: 0", Except.ok ([], ExitOutcome.exited true)⟩
      (by decide) (by decide) rfl).1
    (RFloat.fin 1)
    (by simp +decide [probePhase, rustLines, splitOn, containsSub, findSub, findSubAux, utf8Len,
          byteSlice, sliceFrom, takeBytes, parse_duration, rustParseF32, stripSign, parseNumber,
          splitFirst, parseExp, isDig, digitsToNat, List.isPrefixOf,
          RFloat.add_fin, RFloat.mul_fin])

/-- Claim C7: after the stderr stream is drained, the worker's whole event
trace is the progress events followed by exactly the terminal events of the
exit outcome — `StatusChanged("Conversion successful.")` then
`ProgressChanged(100.0)` on success, `StatusChanged("Conversion failed.")`
alone on a non-zero exit, and a descriptive status alone on a wait error;
nothing follows them. -/
theorem terminal_exit_events (input output s : String) (w : World)
    (lns : List String) (exitOut : ExitOutcome) (total : RFloat)
    (hi : ¬ input = "") (ho : ¬ output = "")
    (hw : w.probe = Except.ok s) (hp : probePhase s = ProbeStep.success total)
    (hs : w.spawn = Except.ok (lns, exitOut)) :
    (workerRun input output w).events
      = (lns.filterMap fun line => (progressOfLine total line).map Message.Progress)
        ++ exitEvents exitOut
    ∧ exitEvents (ExitOutcome.exited true)
        = [Message.Status "Conversion successful.", Message.Progress (RFloat.fin 100)]
    ∧ exitEvents (ExitOutcome.exited false) = [Message.Status "Conversion failed."]
    ∧ (∀ e, exitEvents (ExitOutcome.waitErr e)
        = [Message.Status ("Failed to wait on ffmpeg: " ++ e)]) := by
  have hcond : ¬ (input = "" ∨ output = "") := by simp [hi, ho]
  refine ⟨?_, rfl, rfl, fun e => rfl⟩
  simp [workerRun, hcond, hw, hp, hs]

/-- Witness for C7: the trace shape at a concrete failing run — the final
status is `"Conversion failed."` with no forced 100-percent event. -/
theorem terminal_exit_events_witness :
    (workerRun "in.mp4" "out.mp4"
      ⟨Except.ok " Duration: 00:00:01.00, start: 0",
       Except.ok (["time=00:00:01.00 x"], ExitOutcome.exited false)⟩).events
      = (["time=00:00:01.00 x"].filterMap fun line =>
          (progressOfLine (RFloat.fin 1) line).map Message.Progress)
        ++ exitEvents (ExitOutcome.exited false)
    ∧ exitEvents (ExitOutcome.exited true)
        = [Message.Status "Conversion successful.", Message.Progress (RFloat.fin 100)]
    ∧ exitEvents (ExitOutcome.exited false) = [Message.Status "Conversion failed."]
    ∧ (∀ e, exitEvents (ExitOutcome.waitErr e)
        = [Message.Status ("Failed to wait on ffmpeg: " ++ e)]) :=
  terminal_exit_events "in.mp4" "out.mp4" " Duration: 00:00:01.00, start: 0"
    ⟨Except.ok " Duration: 00:00:01.00, start: 0",
     Except.ok (["time=00:00:01.00 x"], ExitOutcome.exited false)⟩
    ["time=00:00:01.00 x"] (ExitOutcome.exited false) (RFloat.fin 1)
    (by decide) (by decide) rfl
    (by simp +decide [probePhase, rustLines, splitOn, containsSub, findSub, findSubAux, utf8Len,
          byteSlice, sliceFrom, takeBytes, parse_duration, rustParseF32, stripSign, parseNumber,
          splitFirst, parseExp, isDig, digitsToNat, List.isPrefixOf,
          RFloat.add_fin, RFloat.mul_fin])
    rfl


/-- Helper: a path with an extension always has a file stem, namely the stem
half of `splitStemExt` on its file name. -/
theorem rustFileStem_of_rustExtension (p e : String) (h : rustExtension p = some e) :
    ∃ f, rustFileName p = some f ∧ rustFileStem p = some (splitStemExt f).1 := by
  unfold rustExtension at h
  rcases hf : rustFileName p with _ | f
  · rw [hf] at h
    simp at h
  · exact ⟨f, rfl, by simp [rustFileStem, hf]⟩

/-- Claim C6: extension normalization — no extension appends the canonical
one, a case-insensitively different extension is replaced by recombining the
file stem with the canonical one, and a case-insensitive match leaves the
path unchanged; with the claim's three MKV examples. -/
theorem extension_normalization_cases (output : String) (i : Fin SUPPORTED_FORMATS.length) :
    ((rustExtension output = none →
        normalizeOutput output (SUPPORTED_FORMATS.get i).2
          = output ++ (SUPPORTED_FORMATS.get i).2)
      ∧ (∀ e, rustExtension output = some e →
          asciiLower e ≠ asciiLower (trimLeadingDots (SUPPORTED_FORMATS.get i).2) →
          ∃ stem, rustFileStem output = some stem ∧
            normalizeOutput output (SUPPORTED_FORMATS.get i).2
              = stem ++ (SUPPORTED_FORMATS.get i).2)
      ∧ (∀ e, rustExtension output = some e →
          asciiLower e = asciiLower (trimLeadingDots (SUPPORTED_FORMATS.get i).2) →
          normalizeOutput output (SUPPORTED_FORMATS.get i).2 = output))
    ∧ SUPPORTED_FORMATS.get ⟨2, by decide⟩ = ("MKV", ".mkv")
    ∧ normalizeOutput "movie" ".mkv" = "movie.mkv"
    ∧ normalizeOutput "movie.avi" ".mkv" = "movie.mkv"
    ∧ normalizeOutput "movie.MKV" ".mkv" = "movie.MKV" := by
  refine ⟨⟨?_, ?_, ?_⟩, by decide, by decide, by decide, by decide⟩
  · intro h
    simp [normalizeOutput, h]
  · intro e he hne
    obtain ⟨f, hf, hstem⟩ := rustFileStem_of_rustExtension output e he
    refine ⟨(splitStemExt f).1, hstem, ?_⟩
    simp [normalizeOutput, he, hstem]
    intro hcontra
    exact absurd hcontra hne
  · intro e he heq
    simp [normalizeOutput, he, heq]

/-- Witness for C6: the replacement case applied to `"movie.avi"` with
format MKV. -/
theorem extension_normalization_cases_witness :
    ∃ stem, rustFileStem "movie.avi" = some stem ∧
      normalizeOutput "movie.avi" (SUPPORTED_FORMATS.get ⟨2, by decide⟩).2
        = stem ++ (SUPPORTED_FORMATS.get ⟨2, by decide⟩).2 :=
  (extension_normalization_cases "movie.avi" ⟨2, by decide⟩).1.2.1 "avi"
    (by decide) (by decide)


theorem splitOn_ne_nil (sep : Char) (l : List Char) : splitOn sep l ≠ [] := by
  induction l with
  | nil => simp [splitOn]
  | cons c rest ih =>
    by_cases hc : c = sep
    · simp [splitOn, hc]
    · rcases h : splitOn sep rest with _ | ⟨hd, tl⟩
      · exact absurd h ih
      · simp [splitOn, hc, h]

theorem sep_not_mem_of_mem_splitOn (sep : Char) (l : List Char) :
    ∀ piece ∈ splitOn sep l, ¬ sep ∈ piece := by
  induction l with
  | nil =>
    intro piece hp
    simp [splitOn] at hp
    simp [hp]
  | cons c rest ih =>
    intro piece hp
    by_cases hc : c = sep
    · rw [splitOn, if_pos hc] at hp
      rcases List.mem_cons.mp hp with rfl | hmem
      · simp
      · exact ih piece hmem
    · rcases h : splitOn sep rest with _ | ⟨hd, tl⟩
      · exact absurd h (splitOn_ne_nil sep rest)
      · rw [splitOn, if_neg hc, h] at hp
        rcases List.mem_cons.mp hp with rfl | hmem
        · intro hsep
          rcases List.mem_cons.mp hsep with rfl | hsep2
          · exact hc rfl
          · exact ih hd (h ▸ List.mem_cons_self hd tl) hsep2
        · exact ih piece (h ▸ List.mem_cons_of_mem hd hmem)

theorem splitFirst_cons_neg (p : Char → Bool) (c : Char) (rest : List Char)
    (hc : ¬ p c = true) :
    splitFirst p (c :: rest)
      = (c :: (splitFirst p rest).1, (splitFirst p rest).2) := by
  simp [splitFirst, hc]

theorem mem_of_mem_splitFirst_fst (p : Char → Bool) (l : List Char) (x : Char) :
    x ∈ (splitFirst p l).1 → x ∈ l := by
  induction l with
  | nil => simp [splitFirst]
  | cons c rest ih =>
    intro hx
    by_cases hc : p c
    · simp [splitFirst, hc] at hx
    · rw [splitFirst_cons_neg p c rest hc] at hx
      rcases List.mem_cons.mp hx with rfl | hx2
      · exact List.mem_cons_self _ _
      · exact List.mem_cons_of_mem _ (ih hx2)

theorem mem_of_mem_splitFirst_snd (p : Char → Bool) (l : List Char) (b : List Char)
    (hb : (splitFirst p l).2 = some b) (x : Char) (hx : x ∈ b) : x ∈ l := by
  induction l generalizing b with
  | nil => simp [splitFirst] at hb
  | cons c rest ih =>
    by_cases hc : p c
    · simp [splitFirst, hc] at hb
      subst hb
      exact List.mem_cons_of_mem _ hx
    · rw [splitFirst_cons_neg p c rest hc] at hb
      exact List.mem_cons_of_mem _ (ih b hb hx)

theorem slash_not_mem_fileName (p f : String) (h : rustFileName p = some f) :
    ¬ '/' ∈ f.toList := by
  simp only [rustFileName] at h
  rcases hl : ((splitOn '/' p.toList).filter
      fun c => decide (¬ c = [] ∧ ¬ c = ['.'])).getLast? with _ | c
  · rw [hl] at h
    simp at h
  · rw [hl] at h
    by_cases hdd : c = ['.', '.']
    · simp [hdd] at h
    · simp [hdd] at h
      obtain ⟨hne, heq⟩ := List.mem_getLast?_eq_getLast (l := (splitOn '/' p.toList).filter
        fun c => decide (¬ c = [] ∧ ¬ c = ['.'])) (x := c) (by rw [hl]; rfl)
      have hcmem : c ∈ splitOn '/' p.toList :=
        List.mem_of_mem_filter (heq ▸ List.getLast_mem hne)
      have : ¬ '/' ∈ c := sep_not_mem_of_mem_splitOn '/' p.toList c hcmem
      rw [← h]
      exact this

theorem stem_chars_subset (f : String) (x : Char)
    (hx : x ∈ (splitStemExt f).1.toList) : x ∈ f.toList := by
  simp only [splitStemExt] at hx
  rcases h2 : (splitFirst (fun c => c = '.') f.toList.reverse).2 with _ | stemR
  · rw [h2] at hx
    exact hx
  · rw [h2] at hx
    by_cases hnil : stemR = []
    · simp [hnil] at hx
      exact hx
    · simp [hnil] at hx
      have hx2 : x ∈ stemR := hx
      have : x ∈ f.toList.reverse :=
        mem_of_mem_splitFirst_snd (fun c => c = '.') f.toList.reverse stemR h2 x hx2
      exact List.mem_reverse.mp this

/-- Claim C9: when the output path's extension mismatches the selected
format case-insensitively, the normalized path is exactly the bare file
stem plus the canonical extension — the stem contains no `/`, so any
parent-directory component is dropped, as the `/videos/movie.avi` example
shows. -/
theorem mismatch_drops_parent_dirs (output sel e : String)
    (hext : rustExtension output = some e)
    (hne : asciiLower e ≠ asciiLower (trimLeadingDots sel)) :
    (∃ stem, rustFileStem output = some stem
      ∧ normalizeOutput output sel = stem ++ sel
      ∧ ¬ '/' ∈ stem.toList)
    ∧ normalizeOutput "/videos/movie.avi" ".mkv" = "movie.mkv" := by
  refine ⟨?_, by decide⟩
  obtain ⟨f, hf, hstem⟩ := rustFileStem_of_rustExtension output e hext
  refine ⟨(splitStemExt f).1, hstem, ?_, ?_⟩
  · simp [normalizeOutput, hext, hstem]
    intro hcontra
    exact absurd hcontra hne
  · intro hmem
    exact slash_not_mem_fileName output f hf (stem_chars_subset f '/' hmem)

/-- Witness for C9: the claim applied to the concrete path
`"/videos/movie.avi"` with the MKV extension. -/
theorem mismatch_drops_parent_dirs_witness :
    (∃ stem, rustFileStem "/videos/movie.avi" = some stem
      ∧ normalizeOutput "/videos/movie.avi" ".mkv" = stem ++ ".mkv"
      ∧ ¬ '/' ∈ stem.toList)
    ∧ normalizeOutput "/videos/movie.avi" ".mkv" = "movie.mkv" :=
  mismatch_drops_parent_dirs "/videos/movie.avi" ".mkv" "avi" (by decide) (by decide)


theorem clampProgress_fin (total q : ℚ) (hne : total ≠ 0) :
    clampProgress (RFloat.fin total) (RFloat.fin q)
      = RFloat.fin (min (q / total * 100) 100) := by
  simp only [clampProgress, RFloat.div_fin, if_neg hne, RFloat.mul_fin, RFloat.lt_fin,
    decide_eq_true_eq]
  rcases le_or_lt (q / total * 100) 100 with h | h
  · rw [if_neg (not_lt.mpr h), min_eq_left h]
  · rw [if_pos h, min_eq_right h.le]

/-- Claim C8: for a strictly positive total duration and stderr lines whose
parsed `time=` values are finite, non-negative and non-decreasing, the
emitted `ProgressChanged` payloads are the clamped percentages followed by
the final `100`, the whole sequence is monotonically non-decreasing, and on
a successful exit it ends at exactly `100`. -/
theorem progress_monotone_success (input output s : String) (w : World)
    (lns : List String) (total : ℚ) (vals : List ℚ)
    (hi : ¬ input = "") (ho : ¬ output = "")
    (hw : w.probe = Except.ok s) (hp : probePhase s = ProbeStep.success (RFloat.fin total))
    (hs : w.spawn = Except.ok (lns, ExitOutcome.exited true))
    (htot : 0 < total)
    (hv : lns.filterMap elapsedOfLine = vals.map RFloat.fin)
    (hmono : List.Chain' (fun a b => a ≤ b) vals)
    (hnn : ∀ q ∈ vals, 0 ≤ q) :
    progressValues (workerRun input output w).events
      = (vals.map (fun q => min (q / total * 100) 100) ++ [100]).map RFloat.fin
    ∧ List.Chain' (fun a b => a ≤ b)
        (vals.map (fun q => min (q / total * 100) 100) ++ [100])
    ∧ (vals.map (fun q => min (q / total * 100) 100) ++ [100]).getLast?
        = some (100 : ℚ) := by
  have hne : total ≠ 0 := ne_of_gt htot
  have hcond : ¬ (input = "" ∨ output = "") := by simp [hi, ho]
  refine ⟨?_, ?_, List.getLast?_concat _⟩
  · have hev : (workerRun input output w).events
        = (lns.filterMap fun line =>
            (progressOfLine (RFloat.fin total) line).map Message.Progress)
          ++ [Message.Status "Conversion successful.", Message.Progress (RFloat.fin 100)] := by
      simp [workerRun, hcond, hw, hp, hs, exitEvents]
    rw [hev]
    unfold progressValues
    rw [List.filterMap_append, List.filterMap_filterMap]
    have hpv2 : ([Message.Status "Conversion successful.",
        Message.Progress (RFloat.fin 100)].filterMap fun m =>
          match m with
          | Message.Progress p => some p
          | Message.Status _ => none) = [RFloat.fin 100] := by
      simp [List.filterMap]
    rw [hpv2]
    have hstep : (lns.filterMap fun x =>
        ((progressOfLine (RFloat.fin total) x).map Message.Progress).bind fun m =>
          match m with
          | Message.Progress p => some p
          | Message.Status _ => none)
        = lns.filterMap (progressOfLine (RFloat.fin total)) := by
      apply List.filterMap_congr
      intro l _
      cases progressOfLine (RFloat.fin total) l <;> rfl
    rw [hstep]
    have hcompose : lns.filterMap (progressOfLine (RFloat.fin total))
        = (lns.filterMap elapsedOfLine).map
            (fun current => clampProgress (RFloat.fin total) current) := by
      rw [List.map_filterMap]
      rfl
    rw [hcompose, hv, List.map_map, List.map_append]
    have hfun : ((fun current => clampProgress (RFloat.fin total) current) ∘ RFloat.fin)
        = fun q => RFloat.fin (min (q / total * 100) 100) := by
      funext q
      exact clampProgress_fin total q hne
    rw [hfun]
    simp
  · rw [List.chain'_append]
    refine ⟨?_, List.chain'_singleton _, ?_⟩
    · rw [List.chain'_map]
      refine hmono.imp ?_
      intro a b hab
      refine min_le_min ?_ le_rfl
      exact mul_le_mul_of_nonneg_right ((div_le_div_iff_of_pos_right htot).mpr hab) (by norm_num)
    · intro x hx y hy
      simp at hy
      subst hy
      obtain ⟨hmem, heq⟩ := List.mem_getLast?_eq_getLast hx
      have : x ∈ vals.map (fun q => min (q / total * 100) 100) :=
        heq ▸ List.getLast_mem hmem
      obtain ⟨q, _, rfl⟩ := List.mem_map.mp this
      exact min_le_right _ _


/-- Witness for C8: a concrete successful run with total `276` and two
increasing `time=` lines. -/
theorem progress_monotone_success_witness :
    progressValues (workerRun "in.mp4" "out.mp4"
        ⟨Except.ok " Duration: 00:04:36.10, start: 0",
         Except.ok (["time=00:01:00.00 x", "time=00:02:00.00 x"],
           ExitOutcome.exited true)⟩).events
      = (([60, 120] : List ℚ).map (fun q => min (q / 276 * 100) 100) ++ [100]).map RFloat.fin
    ∧ List.Chain' (fun a b => a ≤ b)
        (([60, 120] : List ℚ).map (fun q => min (q / 276 * 100) 100) ++ [100])
    ∧ (([60, 120] : List ℚ).map (fun q => min (q / 276 * 100) 100) ++ [100]).getLast?
        = some (100 : ℚ) :=
  progress_monotone_success "in.mp4" "out.mp4" " Duration: 00:04:36.10, start: 0"
    ⟨Except.ok " Duration: 00:04:36.10, start: 0",
     Except.ok (["time=00:01:00.00 x", "time=00:02:00.00 x"], ExitOutcome.exited true)⟩
    ["time=00:01:00.00 x", "time=00:02:00.00 x"] 276 [60, 120]
    (by decide) (by decide) rfl
    (by simp +decide [probePhase, rustLines, splitOn, containsSub, findSub, findSubAux, utf8Len,
          byteSlice, sliceFrom, takeBytes, parse_duration, rustParseF32, stripSign, parseNumber,
          splitFirst, parseExp, isDig, digitsToNat, List.isPrefixOf,
          RFloat.add_fin, RFloat.mul_fin]
        norm_num)
    rfl
    (by norm_num)
    (by simp +decide [elapsedOfLine, timeField, findSub, findSubAux, utf8Len, sliceFrom,
          parse_duration, splitOn, rustParseF32, stripSign, parseNumber, splitFirst, parseExp,
          isDig, digitsToNat, List.isPrefixOf, RFloat.add_fin, RFloat.mul_fin]
        norm_num)
    (by simp
        norm_num)
    (by intro q hq
        simp at hq
        rcases hq with rfl | rfl <;> norm_num)


theorem parse_duration_of_parses (s : String) (p0 p1 p2 : List Char) (h m sec : RFloat)
    (hs : splitOn ':' s.toList = [p0, p1, p2])
    (h0 : rustParseF32 p0 = some h) (h1 : rustParseF32 p1 = some m)
    (h2 : rustParseF32 p2 = some sec) :
    parse_duration s = some (RFloat.add (RFloat.add (RFloat.mul h (RFloat.fin 3600))
      (RFloat.mul m (RFloat.fin 60))) sec) := by
  unfold parse_duration
  rw [hs]
  simp [h0, h1, h2]

theorem utf8Len_pos (c : Char) : 1 ≤ utf8Len c := by
  unfold utf8Len
  split_ifs <;> norm_num

theorem utf8Bytes_cons (c : Char) (l : List Char) :
    utf8Bytes (c :: l) = utf8Len c + utf8Bytes l := by
  simp [utf8Bytes]

theorem utf8Bytes_append (a b : List Char) :
    utf8Bytes (a ++ b) = utf8Bytes a + utf8Bytes b := by
  simp [utf8Bytes]

theorem sliceFrom_bytes_append (a b : List Char) :
    sliceFrom (a ++ b) (utf8Bytes a) = some b := by
  induction a with
  | nil => simp [utf8Bytes, sliceFrom]
  | cons c a ih =>
    have h1 : 1 ≤ utf8Len c := utf8Len_pos c
    rw [utf8Bytes_cons]
    obtain ⟨m, hm⟩ : ∃ m, utf8Len c + utf8Bytes a = m + 1 :=
      ⟨utf8Len c + utf8Bytes a - 1, by omega⟩
    rw [List.cons_append, hm]
    have hle : utf8Len c ≤ m + 1 := by omega
    have harg : m + 1 - utf8Len c = utf8Bytes a := by omega
    rw [sliceFrom, if_pos hle, harg]
    exact ih

theorem takeBytes_bytes_append (a b : List Char) :
    takeBytes (a ++ b) (utf8Bytes a) = some a := by
  induction a with
  | nil => simp [utf8Bytes, takeBytes]
  | cons c a ih =>
    have h1 : 1 ≤ utf8Len c := utf8Len_pos c
    rw [utf8Bytes_cons]
    obtain ⟨m, hm⟩ : ∃ m, utf8Len c + utf8Bytes a = m + 1 :=
      ⟨utf8Len c + utf8Bytes a - 1, by omega⟩
    rw [List.cons_append, hm]
    have hle : utf8Len c ≤ m + 1 := by omega
    have harg : m + 1 - utf8Len c = utf8Bytes a := by omega
    rw [takeBytes, if_pos hle, harg, ih]
    rfl

theorem isDig_bounds (c : Char) (hc : isDig c = true) : 48 ≤ c.toNat ∧ c.toNat ≤ 57 := by
  simpa [isDig] using hc

theorem isDig_ne (c d : Char) (hc : isDig c = true)
    (hd : ¬ (48 ≤ d.toNat ∧ d.toNat ≤ 57)) : ¬ c = d := by
  intro h
  subst h
  exact hd (isDig_bounds c hc)

theorem isDig_utf8Len (c : Char) (hc : isDig c = true) : utf8Len c = 1 := by
  obtain ⟨_, h2⟩ := isDig_bounds c hc
  unfold utf8Len
  rw [if_pos (by omega)]

theorem splitOn_no_sep (sep : Char) (l : List Char) (h : ¬ sep ∈ l) :
    splitOn sep l = [l] := by
  induction l with
  | nil => rfl
  | cons c rest ih =>
    have hc : ¬ c = sep := fun e => h (e ▸ List.mem_cons_self c rest)
    have hrest : ¬ sep ∈ rest := fun e => h (List.mem_cons_of_mem c e)
    simp [splitOn, hc, ih hrest]

theorem findSubAux_isSome_mono (pat1 pat2 : List Char) (hp : pat1 <+: pat2) :
    ∀ (l : List Char) (ofs : Nat),
      (findSubAux pat2 l ofs).isSome = true → (findSubAux pat1 l ofs).isSome = true := by
  intro l
  induction l with
  | nil =>
    intro ofs h
    rw [findSubAux] at h ⊢
    split at h
    · next h2 =>
      subst h2
      rw [if_pos (List.prefix_nil.mp hp)]
      rfl
    · simp at h
  | cons c rest ih =>
    intro ofs h
    by_cases hp1 : pat1.isPrefixOf (c :: rest) = true
    · rw [findSubAux, if_pos hp1]
      rfl
    · rw [findSubAux, if_neg hp1]
      by_cases hp2 : pat2.isPrefixOf (c :: rest) = true
      · exact absurd (List.isPrefixOf_iff_prefix.mpr
          (hp.trans (List.isPrefixOf_iff_prefix.mp hp2))) hp1
      · rw [findSubAux, if_neg hp2] at h
        exact ih _ h

theorem findSub_isSome_mono (hay pat1 pat2 : String) (hp : pat1.toList <+: pat2.toList)
    (h : (findSub hay pat2).isSome = true) : (findSub hay pat1).isSome = true :=
  findSubAux_isSome_mono pat1.toList pat2.toList hp hay.toList 0 h

theorem rustParseF32_two_digits (a b : Char) (ha : isDig a = true) (hb : isDig b = true) :
    rustParseF32 [a, b] = some (RFloat.fin (digitsToNat [a, b] : ℚ)) := by
  have hna : ¬ a = '-' := isDig_ne a '-' ha (by decide)
  have hpa : ¬ a = '+' := isDig_ne a '+' ha (by decide)
  have hea : ¬ (a = 'e' ∨ a = 'E') := by
    rintro (h | h)
    · exact isDig_ne a 'e' ha (by decide) h
    · exact isDig_ne a 'E' ha (by decide) h
  have heb : ¬ (b = 'e' ∨ b = 'E') := by
    rintro (h | h)
    · exact isDig_ne b 'e' hb (by decide) h
    · exact isDig_ne b 'E' hb (by decide) h
  have hda : ¬ a = '.' := isDig_ne a '.' ha (by decide)
  have hdb : ¬ b = '.' := isDig_ne b '.' hb (by decide)
  simp [rustParseF32, stripSign, parseNumber, splitFirst, hna, hpa, hea, heb, hda, hdb,
    ha, hb, digitsToNat]

theorem rustParseF32_two_digits_dot (a b : Char) (ha : isDig a = true) (hb : isDig b = true) :
    rustParseF32 [a, b, '.'] = some (RFloat.fin (digitsToNat [a, b] : ℚ)) := by
  have hna : ¬ a = '-' := isDig_ne a '-' ha (by decide)
  have hpa : ¬ a = '+' := isDig_ne a '+' ha (by decide)
  have hea : ¬ (a = 'e' ∨ a = 'E') := by
    rintro (h | h)
    · exact isDig_ne a 'e' ha (by decide) h
    · exact isDig_ne a 'E' ha (by decide) h
  have heb : ¬ (b = 'e' ∨ b = 'E') := by
    rintro (h | h)
    · exact isDig_ne b 'e' hb (by decide) h
    · exact isDig_ne b 'E' hb (by decide) h
  have hda : ¬ a = '.' := isDig_ne a '.' ha (by decide)
  have hdb : ¬ b = '.' := isDig_ne b '.' hb (by decide)
  simp [rustParseF32, stripSign, parseNumber, splitFirst, hna, hpa, hea, heb, hda, hdb,
    ha, hb, digitsToNat]

theorem parse_duration_timestamp (a1 a2 b1 b2 c1 c2 : Char)
    (ha1 : isDig a1 = true) (ha2 : isDig a2 = true)
    (hb1 : isDig b1 = true) (hb2 : isDig b2 = true)
    (hc1 : isDig c1 = true) (hc2 : isDig c2 = true) :
    parse_duration (String.mk [a1, a2, ':', b1, b2, ':', c1, c2, '.'])
      = some (RFloat.fin ((digitsToNat [a1, a2] : ℚ) * 3600
          + (digitsToNat [b1, b2] : ℚ) * 60 + (digitsToNat [c1, c2] : ℚ))) := by
  have h1 : ¬ a1 = ':' := isDig_ne a1 ':' ha1 (by decide)
  have h2 : ¬ a2 = ':' := isDig_ne a2 ':' ha2 (by decide)
  have h3 : ¬ b1 = ':' := isDig_ne b1 ':' hb1 (by decide)
  have h4 : ¬ b2 = ':' := isDig_ne b2 ':' hb2 (by decide)
  have h5 : ¬ c1 = ':' := isDig_ne c1 ':' hc1 (by decide)
  have h6 : ¬ c2 = ':' := isDig_ne c2 ':' hc2 (by decide)
  have hsplit : splitOn ':' [a1, a2, ':', b1, b2, ':', c1, c2, '.']
      = [[a1, a2], [b1, b2], [c1, c2, '.']] := by
    simp [splitOn, h1, h2, h3, h4, h5, h6]
  rw [parse_duration_of_parses (String.mk [a1, a2, ':', b1, b2, ':', c1, c2, '.'])
      [a1, a2] [b1, b2] [c1, c2, '.'] _ _ _ hsplit
      (rustParseF32_two_digits a1 a2 ha1 ha2) (rustParseF32_two_digits b1 b2 hb1 hb2)
      (rustParseF32_two_digits_dot c1 c2 hc1 hc2)]
  simp [RFloat.mul_fin, RFloat.add_fin]


theorem mk_toList (s : String) : String.mk s.toList = s := rfl

theorem toList_append (a b : String) : (a ++ b).toList = a.toList ++ b.toList := by
  cases a
  cases b
  rfl

/-- Claim C10: the probe extracts exactly the 9 bytes at offsets 10..18
after the start of the `Duration: ` marker, so for a line containing
`Duration: HH:MM:SS.ff` (the marker's first occurrence) the sliced
substring is `HH:MM:SS.` and the probe's TotalDuration is exactly
`HH*3600 + MM*60 + SS` — the fractional `.ff` part is discarded, as the
`276.0` (not `276.10`) concrete example shows. -/
theorem duration_slice_nine_bytes (pre rest line : String) (h1 h2 m1 m2 s1 s2 f1 f2 : Char)
    (hdh1 : isDig h1 = true) (hdh2 : isDig h2 = true)
    (hdm1 : isDig m1 = true) (hdm2 : isDig m2 = true)
    (hds1 : isDig s1 = true) (hds2 : isDig s2 = true)
    (hdf1 : isDig f1 = true) (hdf2 : isDig f2 = true)
    (hline : line = pre ++ String.mk ("Duration: ".toList
      ++ [h1, h2, ':', m1, m2, ':', s1, s2, '.', f1, f2]) ++ rest)
    (hfind : findSub line "Duration: " = some (utf8Bytes pre.toList))
    (hnl : ¬ '\n' ∈ line.toList)
    (hcr : ¬ line.toList.getLast? = some '\r') :
    byteSlice line (utf8Bytes pre.toList + 10) (utf8Bytes pre.toList + 19)
      = some (String.mk [h1, h2, ':', m1, m2, ':', s1, s2, '.'])
    ∧ parse_duration (String.mk [h1, h2, ':', m1, m2, ':', s1, s2, '.'])
      = some (RFloat.fin ((digitsToNat [h1, h2] : ℚ) * 3600
          + (digitsToNat [m1, m2] : ℚ) * 60 + (digitsToNat [s1, s2] : ℚ)))
    ∧ probePhase line = ProbeStep.success (RFloat.fin ((digitsToNat [h1, h2] : ℚ) * 3600
          + (digitsToNat [m1, m2] : ℚ) * 60 + (digitsToNat [s1, s2] : ℚ))) := by
  have htl : line.toList = (pre.toList ++ "Duration: ".toList)
      ++ ([h1, h2, ':', m1, m2, ':', s1, s2, '.'] ++ ([f1, f2] ++ rest.toList)) := by
    rw [hline]
    simp [toList_append]
  have hk10 : utf8Bytes (pre.toList ++ "Duration: ".toList) = utf8Bytes pre.toList + 10 := by
    rw [utf8Bytes_append, show utf8Bytes "Duration: ".toList = 10 from by decide]
  have hts9 : utf8Bytes [h1, h2, ':', m1, m2, ':', s1, s2, '.'] = 9 := by
    simp [utf8Bytes, isDig_utf8Len h1 hdh1, isDig_utf8Len h2 hdh2, isDig_utf8Len m1 hdm1,
      isDig_utf8Len m2 hdm2, isDig_utf8Len s1 hds1, isDig_utf8Len s2 hds2,
      show utf8Len ':' = 1 from by decide, show utf8Len '.' = 1 from by decide]
  have hslice : byteSlice line (utf8Bytes pre.toList + 10) (utf8Bytes pre.toList + 19)
      = some (String.mk [h1, h2, ':', m1, m2, ':', s1, s2, '.']) := by
    unfold byteSlice
    rw [if_pos (by omega : utf8Bytes pre.toList + 10 ≤ utf8Bytes pre.toList + 19),
      show utf8Bytes pre.toList + 19 - (utf8Bytes pre.toList + 10) = 9 from by omega,
      htl, ← hk10, sliceFrom_bytes_append]
    simp only [Option.some_bind]
    rw [← hts9, takeBytes_bytes_append]
    rfl
  have hparse := parse_duration_timestamp h1 h2 m1 m2 s1 s2 hdh1 hdh2 hdm1 hdm2 hds1 hds2
  refine ⟨hslice, hparse, ?_⟩
  have hne_list : ¬ line.toList = [] := by
    rw [htl]
    simp
  have hrl : rustLines line = [line] := by
    simp only [rustLines, splitOn_no_sep '\n' line.toList hnl]
    rw [List.getLast?_singleton,
      if_neg (fun hh => hne_list (Option.some.inj hh))]
    show [String.mk (if line.toList.getLast? = some '\x0d' then line.toList.dropLast
      else line.toList)] = [line]
    rw [if_neg hcr, mk_toList]
  have hcont : containsSub line "Duration:" = true := by
    unfold containsSub
    exact findSub_isSome_mono line "Duration:" "Duration: " ⟨[' '], by decide⟩
      (by rw [hfind]; rfl)
  have hfq : List.find? (fun l => containsSub l "Duration:") [line] = some line := by
    simp [List.find?, hcont]
  simp only [probePhase, hrl, hfq, hfind, hslice, hparse]


/-- Witness for C10: the extraction on the claim's concrete line
`" Duration: 00:04:36.10, start: 0.000000, bitrate: 2018 kb/s"`. -/
theorem duration_slice_nine_bytes_witness :
    byteSlice " Duration: 00:04:36.10, start: 0.000000, bitrate: 2018 kb/s"
        (utf8Bytes " ".toList + 10) (utf8Bytes " ".toList + 19)
      = some (String.mk ['0', '0', ':', '0', '4', ':', '3', '6', '.'])
    ∧ parse_duration (String.mk ['0', '0', ':', '0', '4', ':', '3', '6', '.'])
      = some (RFloat.fin ((digitsToNat ['0', '0'] : ℚ) * 3600
          + (digitsToNat ['0', '4'] : ℚ) * 60 + (digitsToNat ['3', '6'] : ℚ)))
    ∧ probePhase " Duration: 00:04:36.10, start: 0.000000, bitrate: 2018 kb/s"
      = ProbeStep.success (RFloat.fin ((digitsToNat ['0', '0'] : ℚ) * 3600
          + (digitsToNat ['0', '4'] : ℚ) * 60 + (digitsToNat ['3', '6'] : ℚ))) :=
  duration_slice_nine_bytes " " ", start: 0.000000, bitrate: 2018 kb/s"
    " Duration: 00:04:36.10, start: 0.000000, bitrate: 2018 kb/s"
    '0' '0' '0' '4' '3' '6' '1' '0'
    (by decide) (by decide) (by decide) (by decide)
    (by decide) (by decide) (by decide) (by decide)
    (by decide) (by decide) (by decide) (by decide)

end VideoConverter
